import Mathlib

/-!
Verification of the Room/Time Scheduling and Conflict-Free Booking Engine
(SmartClassRoomAPI). Shallow embedding of the scheduling logic of
`dashboard_routes/scheduler.js` (time helpers, auto-scheduler suggest loop,
batch commit) and of the booking create/update routes of
`dashboard_routes/offerings.js`, with theorems about interval overlap,
gap placement, the tentative-reservation map, and the no-double-booking
invariant.  Wall-clock times are minutes since midnight, as in the source
(`parseHHMM` returns `h * 60 + m`); machine numbers are modelled as `Int`.
-/

namespace SchedEngine

/-- A half-open time interval `[s, e)` in minutes since midnight, as pushed
into the per-room/per-day `busy` / `used` arrays by `scheduler.js`
(`{ s: clampedS, e: clampedE }`). -/
structure Interval where
  s : Int
  e : Int
deriving DecidableEq, Repr

/-- The conflict predicate of `rooms.js` `POST /rooms/check`:
`NOT (o.end_minute <= @p2 OR o.start_minute >= @p3)` where `@p2 = newStart`
and `@p3 = newEnd` of the candidate. -/
def overlaps (a b : Interval) : Bool :=
  !(decide (a.e ≤ b.s) || decide (a.s ≥ b.e))

/-- The conflict condition of `scheduler.js` `POST /commit`:
`start_time < @end AND end_time > @start` of an existing row against the
candidate. -/
def commitOverlap (a b : Interval) : Bool :=
  decide (a.s < b.e) && decide (a.e > b.s)

/- ---------- Time model (`scheduler.js` lines 16-35) ---------- -/

/-- Error taxonomy of `parseHHMM`: `"Invalid time format, expected HH:MM"`
and `"Invalid time range"`. -/
inductive TimeErr where
  | invalidTimeFormat
  | invalidTimeRange
deriving DecidableEq, Repr

/-- `String.prototype.trim()` on the character list. -/
def trimChars (l : List Char) : List Char :=
  ((l.dropWhile Char.isWhitespace).reverse.dropWhile Char.isWhitespace).reverse

/-- Numeric value of a decimal digit character. -/
def digitVal (c : Char) : Int :=
  ((c.toNat - '0'.toNat : Nat) : Int)

/-- The regex `^(\d{1,2}):(\d{2})$` of `parseHHMM`: one or two digits,
a colon, exactly two digits; yields `(hours, minutes)`. -/
def matchHHMM : List Char → Option (Int × Int)
  | [h1, c, m1, m2] =>
    if c = ':' ∧ h1.isDigit ∧ m1.isDigit ∧ m2.isDigit then
      some (digitVal h1, 10 * digitVal m1 + digitVal m2)
    else none
  | [h1, h2, c, m1, m2] =>
    if c = ':' ∧ h1.isDigit ∧ h2.isDigit ∧ m1.isDigit ∧ m2.isDigit then
      some (10 * digitVal h1 + digitVal h2, 10 * digitVal m1 + digitVal m2)
    else none
  | _ => none

/-- `parseHHMM(str)` of `scheduler.js`: trims, matches `^(\d{1,2}):(\d{2})$`,
range-checks `h` in 0..23 and `mm` in 0..59, and returns minutes from
midnight `h * 60 + mm`. -/
def parseHHMM (str : String) : Except TimeErr Int :=
  match matchHHMM (trimChars str.data) with
  | none => .error .invalidTimeFormat
  | some (h, mm) =>
    if h < 0 ∨ h > 23 ∨ mm < 0 ∨ mm > 59 then .error .invalidTimeRange
    else .ok (h * 60 + mm)

/-- `String(n).padStart(2, "0")` for the small numbers used by `mmToHHMM`. -/
def pad2 (n : Nat) : String :=
  if n < 10 then "0" ++ toString n else toString n

/-- `mmToHHMM(mm)` of `scheduler.js`: `HH:MM` rendering of minutes from
midnight. -/
def mmToHHMM (mm : Nat) : String :=
  pad2 (mm / 60) ++ ":" ++ pad2 (mm % 60)

example : parseHHMM "08:05" = .ok 485 := rfl
example : parseHHMM " 9:30 " = .ok 570 := rfl
example : parseHHMM "10:30:00" = .error .invalidTimeFormat := rfl
example : parseHHMM "24:00" = .error .invalidTimeRange := rfl
example : parseHHMM "10:60" = .error .invalidTimeRange := rfl
example : parseHHMM "" = .error .invalidTimeFormat := rfl
example : mmToHHMM 485 = "08:05" := rfl

/- ---------- Gap finder (`tryPlaceInRoomDay`, scheduler.js 171-186) ---------- -/

/-- Loop body of `tryPlaceInRoomDay`: scan the intervals keeping the previous
endpoint `prev`; a gap of at least `dur` before the next interval is taken,
otherwise `prev` advances to `max prev itv.e`; at the end the tail gap up to
`we` is tried. -/
def tryPlaceGo (we dur : Int) : Int → List Interval → Option Interval
  | prev, [] => if we - prev ≥ dur then some ⟨prev, prev + dur⟩ else none
  | prev, itv :: rest =>
    if itv.s - prev ≥ dur then some ⟨prev, prev + dur⟩
    else tryPlaceGo we dur (max prev itv.e) rest

/-- `tryPlaceInRoomDay(roomId, day, duration)` of `scheduler.js`, abstracted
over the room/day's interval list: first-fit gap of length `dur` inside the
work window `[ws, we)`. -/
def tryPlaceInRoomDay (ws we dur : Int) (intervals : List Interval) : Option Interval :=
  tryPlaceGo we dur ws intervals

example : tryPlaceInRoomDay 480 960 90 [] = some ⟨480, 570⟩ := rfl
example : tryPlaceInRoomDay 480 960 90 [⟨480, 570⟩] = some ⟨570, 660⟩ := rfl
example : tryPlaceInRoomDay 480 600 90 [⟨480, 570⟩] = none := rfl
example : tryPlaceInRoomDay 480 960 60 [⟨500, 600⟩, ⟨660, 700⟩] = some ⟨600, 660⟩ := rfl

instance : DecidableEq (Except TimeErr Int) := fun a b =>
  match a, b with
  | .ok x, .ok y =>
    if h : x = y then isTrue (by rw [h]) else isFalse (by intro hc; injection hc; contradiction)
  | .error x, .error y =>
    if h : x = y then isTrue (by rw [h]) else isFalse (by intro hc; injection hc; contradiction)
  | .ok _, .error _ => isFalse (by intro hc; injection hc)
  | .error _, .ok _ => isFalse (by intro hc; injection hc)

/- ---------- Sorting by interval start (`arr.sort((a, b) => a.s - b.s)`) ---------- -/

/-- Comparator used throughout `scheduler.js`: ascending interval start. -/
def byStart (a b : Interval) : Prop :=
  a.s ≤ b.s

instance : DecidableRel byStart := fun a b => Int.decLe a.s b.s

instance : IsTotal Interval byStart := ⟨fun a b => Int.le_total a.s b.s⟩

instance : IsTrans Interval byStart := ⟨fun _ _ _ hab hbc => Int.le_trans hab hbc⟩

/-- JavaScript's in-place `arr.sort((a, b) => a.s - b.s)` (a stable sort),
modelled with the stable insertion sort. -/
def sortByStart (l : List Interval) : List Interval :=
  List.insertionSort byStart l

/- ---------- Interval Store Reader (`scheduler.js` lines 136-159) ---------- -/

/-- One row of the `course_offerings` load in `POST /suggest`, with the
`HH:MM` times already parsed to minutes (`parseHHMM(row.start_hhmm)`). -/
structure BookedRow where
  room_id : Int
  day_of_week : Int
  start_min : Int
  end_min : Int
deriving DecidableEq, Repr

/-- Clamp of one loaded row against the work window: `clampedS = max(s, ws)`,
`clampedE = min(e, we)`, kept only when `clampedE > clampedS`. -/
def clampRow (ws we : Int) (r : BookedRow) : Option Interval :=
  if min r.end_min we > max r.start_min ws then
    some ⟨max r.start_min ws, min r.end_min we⟩
  else none

/-- The per-room/per-day entry of the `busy` map of `POST /suggest`: the rows
of that room and day, clamped to the work window, dropped when empty, and
sorted ascending by start. -/
def busyFor (ws we : Int) (rows : List BookedRow) (room day : Int) : List Interval :=
  sortByStart
    ((rows.filter fun r => decide (r.room_id = room) && decide (r.day_of_week = day)).filterMap
      (clampRow ws we))

/- ---------- slot_minutes resolution (`scheduler.js` lines 61, 93-97) ---------- -/

/-- `const dur = Number(slot_minutes) || 90;` — the destructuring default 90
when the field is omitted, and the `|| 90` fallback that also replaces a
supplied 0. -/
def resolveSlot (slot : Option Int) : Int :=
  match slot with
  | none => 90
  | some v => if v = 0 then 90 else v

/-- The `slot_minutes` validation of `POST /suggest`:
`if (dur <= 0 || dur > 600)` rejects, otherwise placement proceeds with
`dur`. -/
def validateSlotMinutes (slot : Option Int) : Except String Int :=
  if resolveSlot slot ≤ 0 ∨ resolveSlot slot > 600 then
    .error "slot_minutes out of range (1..600)"
  else .ok (resolveSlot slot)

/- ---------- Greedy Auto-Scheduler (`scheduler.js` lines 161-240) ---------- -/

/-- One element of the `suggestions` array of `POST /suggest`.  The route
renders `start`/`end` with `mmToHHMM`; they are kept here in minutes. -/
structure Suggestion where
  course_id : Int
  term_id : Option Int
  section_id : Option Int
  group_id : Option Int
  room_id : Option Int
  day_of_week : Option Int
  start_time : Option Int
  end_time : Option Int
  duration_minutes : Int
  ok : Bool
  reason : Option String
deriving DecidableEq, Repr

/-- First element of `l` (in order) on which `f` fires, together with the
value produced — the shape of the `for ... if (hit) break` scans of the
suggest loop. -/
def firstHit {α β : Type} : List α → (α → Option β) → Option (α × β)
  | [], _ => none
  | a :: rest, f =>
    match f a with
    | some b => some (a, b)
    | none => firstHit rest f

/-- The day range `for (let d = ds; d <= de; d++)`. -/
def dayRange (ds de : Int) : List Int :=
  (List.range (de + 1 - ds).toNat).map fun i => ds + i

/-- The nested placement scan for one course: days ascending, and within a
day the candidate rooms in order; the first `(day, room)` whose interval
list admits a gap wins. -/
def placeCourse (rooms days : List Int) (ws we dur : Int)
    (used : Int → Int → List Interval) : Option (Int × Int × Interval) :=
  firstHit days fun d => firstHit rooms fun r => tryPlaceInRoomDay ws we dur (used r d)

/-- `used.get(r.id).get(d).push({s, e}); used.get(r.id).get(d).sort(...)` —
reserve a placed gap in the tentative map. -/
def reserve (used : Int → Int → List Interval) (room day : Int) (g : Interval) :
    Int → Int → List Interval :=
  fun r d => if r = room ∧ d = day then sortByStart (used room day ++ [g]) else used r d

/-- The per-course greedy loop of `POST /suggest`: place each course in input
order, reserving successful placements in the tentative `used` map; a course
with no free slot yields an `ok:false` suggestion and the loop continues. -/
def suggestLoop (rooms days : List Int) (ws we dur : Int)
    (term_id section_id group_id : Option Int) :
    (Int → Int → List Interval) → List Int → List Suggestion
  | _, [] => []
  | used, course_id :: rest =>
    match placeCourse rooms days ws we dur used with
    | some (d, r, g) =>
      { course_id := course_id, term_id := term_id, section_id := section_id,
        group_id := group_id, room_id := some r, day_of_week := some d,
        start_time := some g.s, end_time := some g.e, duration_minutes := dur,
        ok := true, reason := none }
        :: suggestLoop rooms days ws we dur term_id section_id group_id
            (reserve used r d g) rest
    | none =>
      { course_id := course_id, term_id := term_id, section_id := section_id,
        group_id := group_id, room_id := none, day_of_week := none,
        start_time := none, end_time := none, duration_minutes := dur,
        ok := false, reason := some "No free slot within working window" }
        :: suggestLoop rooms days ws we dur term_id section_id group_id used rest

/-- A suggestion reports a successful placement of gap `g` in room `r` on
day `d`. -/
def okPlacement (sug : Suggestion) (r d : Int) (g : Interval) : Prop :=
  sug.ok = true ∧ sug.room_id = some r ∧ sug.day_of_week = some d ∧
    sug.start_time = some g.s ∧ sug.end_time = some g.e

instance (sug : Suggestion) (r d : Int) (g : Interval) :
    Decidable (okPlacement sug r d g) :=
  inferInstanceAs (Decidable (_ ∧ _ ∧ _ ∧ _ ∧ _))

/-- Two suggestions never report overlapping placements in the same room and
day. -/
def suggestionsCompat (s1 s2 : Suggestion) : Prop :=
  ∀ r d g1 g2, okPlacement s1 r d g1 → okPlacement s2 r d g2 →
    overlaps g1 g2 = false

/- ---------- Persisted bookings and Booking Transaction ---------- -/

/-- A persisted row of `dbo.course_offerings` (the Booking of the spec).
Times are the `TIME(0)` values in minutes since midnight.
`duration_minutes` is nullable in the schema (the create route may insert
NULL there), hence `Option`. -/
structure Booking where
  id : Int
  course_id : Int
  term_id : Option Int
  section_id : Option Int
  group_id : Option Int
  room_id : Option Int
  day_of_week : Int
  start_min : Int
  end_min : Int
  duration_minutes : Option Int
deriving DecidableEq, Repr

/-- The `EXISTS` conflict guard of `scheduler.js` `POST /commit`:
`primary_room_id = @room AND day_of_week = @day AND start_time < @end AND
end_time > @start` (an SQL NULL `primary_room_id` never matches the
equality). -/
def hasConflict (db : List Booking) (room dow s e : Int) : Bool :=
  db.any fun b =>
    decide (b.room_id = some room) && decide (b.day_of_week = dow) &&
      decide (b.start_min < e) && decide (b.end_min > s)

/-- JavaScript truthiness of an optional number: `undefined`, `null` and `0`
are falsy. -/
def falsyOptInt (v : Option Int) : Bool :=
  match v with
  | none => true
  | some n => decide (n = 0)

/-- JavaScript truthiness of an optional string: `undefined`, `null` and the
empty string are falsy. -/
def falsyOptStr (v : Option String) : Bool :=
  match v with
  | none => true
  | some st => decide (st = "")

/-- One row of the `POST /commit` request body. -/
structure CommitRow where
  course_id : Option Int
  term_id : Option Int
  section_id : Option Int
  group_id : Option Int
  room_id : Option Int
  day_of_week : Option Int
  start_time : Option String
  end_time : Option String
  duration_minutes : Option Int
deriving DecidableEq, Repr

/-- One element of the `results` array of `POST /commit` (each element
echoes the processed `row`). -/
structure RowResult where
  ok : Bool
  offering_id : Option Int
  reason : Option String
  row : CommitRow
deriving DecidableEq, Repr

/-- `Number(duration_minutes || eHH - sHH)` — the value stored as
`duration_minutes` by the commit insert: the caller's value when it is a
non-zero number, otherwise the parsed `end - start`. -/
def insertedDuration (dm : Option Int) (sHH eHH : Int) : Int :=
  match dm with
  | none => eHH - sHH
  | some d => if d = 0 then eHH - sHH else d

/-- The per-row body of the `POST /commit` loop: field/day validation, time
parsing (`parseHHMM` throws out of the whole request on a malformed time,
modelled by the `Except` error), the conflict-guarded insert.  State is the
booking table plus the next `INSERTED.id`. -/
def commitOne (db : List Booking) (nextId : Int) (row : CommitRow) :
    Except TimeErr (RowResult × List Booking × Int) :=
  if falsyOptInt row.course_id || decide (row.room_id = none) ||
      decide (row.day_of_week = none) || falsyOptStr row.start_time ||
      falsyOptStr row.end_time then
    .ok ({ ok := false, offering_id := none, reason := some "Missing required fields",
           row := row }, db, nextId)
  else if decide (row.day_of_week.getD 0 < 0) || decide (row.day_of_week.getD 0 > 6) then
    .ok ({ ok := false, offering_id := none, reason := some "Invalid day_of_week",
           row := row }, db, nextId)
  else
    match parseHHMM (row.start_time.getD "") with
    | .error err => .error err
    | .ok sHH =>
      match parseHHMM (row.end_time.getD "") with
      | .error err => .error err
      | .ok eHH =>
        if eHH ≤ sHH then
          .ok ({ ok := false, offering_id := none,
                 reason := some "end_time must be after start_time", row := row },
               db, nextId)
        else if hasConflict db (row.room_id.getD 0) (row.day_of_week.getD 0) sHH eHH then
          .ok ({ ok := false, offering_id := none,
                 reason := some "Room already booked at this day/time", row := row },
               db, nextId)
        else
          .ok ({ ok := true, offering_id := some nextId, reason := none, row := row },
               db ++ [{ id := nextId, course_id := row.course_id.getD 0,
                        term_id := row.term_id, section_id := row.section_id,
                        group_id := row.group_id, room_id := some (row.room_id.getD 0),
                        day_of_week := row.day_of_week.getD 0, start_min := sHH,
                        end_min := eHH,
                        duration_minutes :=
                          some (insertedDuration row.duration_minutes sHH eHH) }],
               nextId + 1)

/-- The `for (const row of rows)` loop of `POST /commit`, accumulating the
per-row results in input order. -/
def commitRows : List Booking → Int → List CommitRow →
    Except TimeErr (List RowResult × List Booking × Int)
  | db, n, [] => .ok ([], db, n)
  | db, n, row :: rest =>
    match commitOne db n row with
    | .error err => .error err
    | .ok (res, db2, n2) =>
      match commitRows db2 n2 rest with
      | .error err => .error err
      | .ok (results, db3, n3) => .ok (res :: results, db3, n3)

/- ---------- Single-booking create (`offerings.js` POST /) ---------- -/

/-- Outcome of the create/update offering routes. -/
inductive WriteOutcome where
  | badRequest (msg : String)
  | notFound
  | conflict
  | written (id : Int)
deriving DecidableEq, Repr

/-- Request body of `offerings.js` `POST /` (create a single offering); the
time strings are modelled as `TIME(0)` minute values. -/
structure CreateReq where
  course_id : Option Int
  term_id : Option Int
  section_id : Option Int
  group_id : Option Int
  primary_room_id : Option Int
  day_of_week : Option Int
  start_min : Option Int
  end_min : Option Int
  duration_minutes : Option Int
deriving DecidableEq, Repr

/-- `@end` of the create SQL: the supplied `end_time` or
`DATEADD(MINUTE, dur, @start)` when only a duration is sent. -/
def createEnd (p : CreateReq) : Int :=
  match p.end_min with
  | some e => e
  | none => p.start_min.getD 0 + p.duration_minutes.getD 0

/-- The `course_offerings` row inserted by the create route. -/
def createBooking (nextId : Int) (p : CreateReq) : Booking :=
  { id := nextId, course_id := p.course_id.getD 0, term_id := p.term_id,
    section_id := p.section_id, group_id := p.group_id,
    room_id := p.primary_room_id, day_of_week := p.day_of_week.getD 0,
    start_min := p.start_min.getD 0, end_min := createEnd p,
    duration_minutes := p.duration_minutes }

/-- `offerings.js` `POST /` (single-booking create): required-field checks,
day/duration validation, `@end` taken from `end_time` or
`DATEADD(MINUTE, dur, @start)`, and a conflict-guarded insert run only when
a room is supplied. -/
def createOffering (db : List Booking) (nextId : Int) (p : CreateReq) :
    WriteOutcome × List Booking × Int :=
  if falsyOptInt p.course_id then (.badRequest "course_id is required", db, nextId)
  else if p.day_of_week = none then (.badRequest "day_of_week is required", db, nextId)
  else if p.start_min = none then (.badRequest "start_time is required", db, nextId)
  else if p.end_min = none ∧ falsyOptInt p.duration_minutes then
    (.badRequest "Provide end_time or duration_minutes", db, nextId)
  else if p.day_of_week.getD 0 < 0 ∨ p.day_of_week.getD 0 > 6 then
    (.badRequest "day_of_week must be 0..6", db, nextId)
  else if (match p.duration_minutes with
           | some d => decide (d ≤ 0) || decide (d > 600)
           | none => false) then
    (.badRequest "duration_minutes must be 1..600", db, nextId)
  else
    match p.primary_room_id with
    | some room =>
      if hasConflict db room (p.day_of_week.getD 0) (p.start_min.getD 0)
          (createEnd p) then
        (.conflict, db, nextId)
      else (.written nextId, db ++ [createBooking nextId p], nextId + 1)
    | none => (.written nextId, db ++ [createBooking nextId p], nextId + 1)

/- ---------- Partial update (`offerings.js` PATCH /:id) ---------- -/

/-- Request body of `offerings.js` `PATCH /:id`; absent fields keep the
current row's values (`COALESCE`). -/
structure PatchReq where
  term_id : Option Int
  section_id : Option Int
  group_id : Option Int
  primary_room_id : Option Int
  day_of_week : Option Int
  start_min : Option Int
  end_min : Option Int
  duration_minutes : Option Int
deriving DecidableEq, Repr

/-- The conflict `EXISTS` of the patch SQL, which excludes the updated row
itself: `primary_room_id=@room AND day_of_week=@day AND id<>@id AND
start_time < @end AND end_time > @start`. -/
def hasConflictExcl (db : List Booking) (exclId room dow s e : Int) : Bool :=
  db.any fun b =>
    decide (b.id ≠ exclId) && decide (b.room_id = some room) &&
      decide (b.day_of_week = dow) && decide (b.start_min < e) &&
      decide (b.end_min > s)

/-- `COALESCE(@p1, @cur_day)` — effective day of the patch. -/
def patchDay (cur : Booking) (p : PatchReq) : Int :=
  p.day_of_week.getD cur.day_of_week

/-- `COALESCE(@p2, @cur_start)` — effective start of the patch. -/
def patchStart (cur : Booking) (p : PatchReq) : Int :=
  p.start_min.getD cur.start_min

/-- The `CASE` computing `@end` of the patch: the supplied end, else
`DATEADD(MINUTE, dur, @start)` when a duration is supplied, else the current
end. -/
def patchEnd (cur : Booking) (p : PatchReq) : Int :=
  match p.end_min with
  | some e => e
  | none =>
    match p.duration_minutes with
    | some d => patchStart cur p + d
    | none => cur.end_min

/-- `COALESCE(@p5, @cur_room)` — effective room of the patch. -/
def patchRoom (cur : Booking) (p : PatchReq) : Option Int :=
  p.primary_room_id <|> cur.room_id

/-- The `UPDATE ... WHERE id=@id` of the patch, with `COALESCE`d fields. -/
def patchUpdate (db : List Booking) (id : Int) (cur : Booking) (p : PatchReq) :
    List Booking :=
  db.map fun b =>
    if b.id = id then
      { b with term_id := p.term_id <|> b.term_id,
               section_id := p.section_id <|> b.section_id,
               group_id := p.group_id <|> b.group_id,
               room_id := p.primary_room_id <|> b.room_id,
               day_of_week := patchDay cur p, start_min := patchStart cur p,
               end_min := patchEnd cur p,
               duration_minutes := p.duration_minutes <|> b.duration_minutes }
    else b

/-- `offerings.js` `PATCH /:id`: existence check, optional-field validation,
effective day/start/end/room built by `COALESCE` with the current row
(`@end` falls back to `DATEADD(MINUTE, dur, @start)` when only a duration is
sent), exclude-self conflict check when a room is in effect, then the
`UPDATE` with `COALESCE`d fields. -/
def patchOffering (db : List Booking) (id : Int) (p : PatchReq) :
    WriteOutcome × List Booking :=
  match db.find? fun b => decide (b.id = id) with
  | none => (.notFound, db)
  | some cur =>
    if (match p.day_of_week with
        | some d => decide (d < 0) || decide (d > 6)
        | none => false) then
      (.badRequest "day_of_week must be 0..6", db)
    else if (match p.duration_minutes with
             | some d => decide (d ≤ 0) || decide (d > 600)
             | none => false) then
      (.badRequest "duration_minutes must be 1..600", db)
    else
      match patchRoom cur p with
      | some rm =>
        if hasConflictExcl db id rm (patchDay cur p) (patchStart cur p)
            (patchEnd cur p) then
          (.conflict, db)
        else (.written id, patchUpdate db id cur p)
      | none => (.written id, patchUpdate db id cur p)

/- ---------- The global safety invariant (spec section 3) ---------- -/

/-- Two bookings are compatible when, if they name the same room and fall on
the same day of week, their half-open intervals do not overlap:
`B1.end <= B2.start OR B2.end <= B1.start`. -/
def Compat (b1 b2 : Booking) : Prop :=
  ∀ rm : Int, b1.room_id = some rm → b2.room_id = some rm →
    b1.day_of_week = b2.day_of_week →
    b1.end_min ≤ b2.start_min ∨ b2.end_min ≤ b1.start_min

/-- The no-double-booking invariant over the persisted table. -/
def InvariantDB (db : List Booking) : Prop :=
  List.Pairwise Compat db

/-- A commit row reaches the `parseHHMM` calls: it passes the
missing-required-fields check and the `day_of_week` range check. -/
def reachesParse (row : CommitRow) : Prop :=
  (falsyOptInt row.course_id || decide (row.room_id = none) ||
      decide (row.day_of_week = none) || falsyOptStr row.start_time ||
      falsyOptStr row.end_time) = false ∧
    (decide (row.day_of_week.getD 0 < 0) || decide (row.day_of_week.getD 0 > 6)) = false

/-- A commit row is within the declared interface shape: whenever its times
are parsed they are well-formed `HH:MM` values (so `parseHHMM` does not
throw the request away). -/
def rowSafe (row : CommitRow) : Prop :=
  reachesParse row →
    (∃ v, parseHHMM (row.start_time.getD "") = .ok v) ∧
      ∃ w, parseHHMM (row.end_time.getD "") = .ok w

/- ====================== Theorems ====================== -/

lemma overlaps_true_iff (a b : Interval) : overlaps a b = true ↔ a.s < b.e ∧ b.s < a.e := by
  simp only [overlaps, Bool.not_eq_eq_eq_not, Bool.not_true, Bool.or_eq_false_iff,
    decide_eq_false_iff_not, not_le, ge_iff_le, not_lt]
  omega

lemma overlaps_false_iff (a b : Interval) :
    overlaps a b = false ↔ a.e ≤ b.s ∨ b.e ≤ a.s := by
  rw [← Bool.not_eq_true, overlaps_true_iff]
  omega

lemma overlaps_comm_lemma (a b : Interval) : overlaps a b = overlaps b a := by
  cases h1 : overlaps a b <;> cases h2 : overlaps b a <;> try rfl
  · rw [overlaps_false_iff] at h1
    rw [overlaps_true_iff] at h2
    omega
  · rw [overlaps_true_iff] at h1
    rw [overlaps_false_iff] at h2
    omega

/-- C2: the conflict predicate `overlaps(existing, candidate) =
NOT (existing.end <= candidate.start OR existing.start >= candidate.end)` is
symmetric and holds exactly for half-open-interval intersection
(`A.start < B.end AND B.start < A.end`); the commit guard
`start_time < @end AND end_time > @start` is the same predicate. -/
theorem overlap_predicate_correct :
    (∀ a b : Interval, overlaps a b = overlaps b a) ∧
    (∀ a b : Interval, overlaps a b = true ↔ a.s < b.e ∧ b.s < a.e) ∧
    (∀ a b : Interval, commitOverlap a b = overlaps a b) := by
  refine ⟨overlaps_comm_lemma, overlaps_true_iff, fun a b => ?_⟩
  cases h1 : commitOverlap a b <;> cases h2 : overlaps a b <;> try rfl
  · simp only [commitOverlap, Bool.and_eq_false_iff, decide_eq_false_iff_not, not_lt] at h1
    rw [overlaps_true_iff] at h2
    omega
  · simp only [commitOverlap, Bool.and_eq_true, decide_eq_true_eq] at h1
    rw [overlaps_false_iff] at h2
    omega

lemma tryPlaceGo_some_facts (we dur : Int) :
    ∀ (l : List Interval) (prev : Int) (g : Interval),
      tryPlaceGo we dur prev l = some g → g.e = g.s + dur ∧ prev ≤ g.s := by
  intro l
  induction l with
  | nil =>
    intro prev g h
    simp only [tryPlaceGo] at h
    split at h
    · cases h
      exact ⟨rfl, le_refl _⟩
    · cases h
  | cons itv rest ih =>
    intro prev g h
    simp only [tryPlaceGo] at h
    split at h
    · cases h
      exact ⟨rfl, le_refl _⟩
    · obtain ⟨h1, h2⟩ := ih (max prev itv.e) g h
      exact ⟨h1, le_trans (le_max_left _ _) h2⟩

lemma tryPlaceGo_avoid (we dur : Int) :
    ∀ (l : List Interval) (prev : Int) (g : Interval), List.Pairwise byStart l →
      tryPlaceGo we dur prev l = some g → ∀ itv ∈ l, overlaps itv g = false := by
  intro l
  induction l with
  | nil =>
    intro prev g _ _ itv hm
    cases hm
  | cons itv0 rest ih =>
    intro prev g hp h itv hm
    obtain ⟨hhead, htail⟩ := List.pairwise_cons.mp hp
    simp only [tryPlaceGo] at h
    split at h
    · rename_i hgap
      cases h
      rcases List.mem_cons.mp hm with rfl | hm
      · rw [overlaps_false_iff]
        right
        simpa using by omega
      · rw [overlaps_false_iff]
        right
        have hs := hhead itv hm
        simp only [byStart] at hs
        simpa using by omega
    · rcases List.mem_cons.mp hm with rfl | hm
      · have hps := (tryPlaceGo_some_facts we dur rest (max prev itv.e) g h).2
        rw [overlaps_false_iff]
        left
        calc itv.e ≤ max prev itv.e := le_max_right _ _
          _ ≤ g.s := hps
      · exact ih (max prev itv0.e) g htail h itv hm

lemma tryPlaceGo_window (we dur : Int) :
    ∀ (l : List Interval) (prev : Int) (g : Interval),
      (∀ itv ∈ l, itv.s < itv.e ∧ itv.e ≤ we) →
      tryPlaceGo we dur prev l = some g → g.e ≤ we := by
  intro l
  induction l with
  | nil =>
    intro prev g _ h
    simp only [tryPlaceGo] at h
    split at h
    · cases h
      rename_i hc
      simpa using by omega
    · cases h
  | cons itv0 rest ih =>
    intro prev g hwin h
    simp only [tryPlaceGo] at h
    split at h
    · cases h
      rename_i hgap
      have h0 := hwin itv0 (List.mem_cons_self _ _)
      simpa using by omega
    · exact ih (max prev itv0.e) g (fun itv hm => hwin itv (List.mem_cons_of_mem _ hm)) h

lemma tryPlaceGo_none (we dur : Int) :
    ∀ (l : List Interval) (prev : Int), tryPlaceGo we dur prev l = none →
      ∀ x, prev ≤ x → x + dur ≤ we → ∃ itv ∈ l, overlaps itv ⟨x, x + dur⟩ = true := by
  intro l
  induction l with
  | nil =>
    intro prev h x hx hxe
    simp only [tryPlaceGo] at h
    split at h
    · cases h
    · rename_i hc
      exact absurd (by omega) hc
  | cons itv0 rest ih =>
    intro prev h x hx hxe
    simp only [tryPlaceGo] at h
    split at h
    · cases h
    · rename_i hgap
      by_cases hcase : max prev itv0.e ≤ x
      · obtain ⟨itv, hm, ho⟩ := ih (max prev itv0.e) h x hcase hxe
        exact ⟨itv, List.mem_cons_of_mem _ hm, ho⟩
      · refine ⟨itv0, List.mem_cons_self _ _, ?_⟩
        rw [overlaps_true_iff]
        constructor
        · simp only
          omega
        · simp only
          omega

/-- C3: on a sorted, pairwise non-overlapping interval list of one room/day
(each interval nonempty and clamped inside the work window), the gap finder
`tryPlaceInRoomDay` returns an interval that starts no earlier than
`workStart`, ends no later than `workEnd`, has length exactly `slotMinutes`
and overlaps nothing in the list; and it returns `null` exactly when no
in-window placement of that length avoids every listed interval.  The
definition of `tryPlaceInRoomDay` is the literal scan of the spec
(`prev = workStart`, first `itv.start - prev >= slotMinutes` wins, else
`prev = max(prev, itv.end)`, then the tail gap). -/
theorem tryPlace_gap_correct (ws we dur : Int) (l : List Interval)
    (hsorted : List.Pairwise byStart l)
    (_hnov : List.Pairwise (fun a b => overlaps a b = false) l)
    (hwin : ∀ itv ∈ l, ws ≤ itv.s ∧ itv.s < itv.e ∧ itv.e ≤ we)
    (_hwswe : ws < we) (_hdur : 0 < dur) :
    (∀ g, tryPlaceInRoomDay ws we dur l = some g →
        g.e = g.s + dur ∧ ws ≤ g.s ∧ g.e ≤ we ∧ ∀ itv ∈ l, overlaps itv g = false) ∧
    (tryPlaceInRoomDay ws we dur l = none →
        ∀ x, ws ≤ x → x + dur ≤ we → ∃ itv ∈ l, overlaps itv ⟨x, x + dur⟩ = true) := by
  constructor
  · intro g h
    obtain ⟨h1, h2⟩ := tryPlaceGo_some_facts we dur l ws g h
    refine ⟨h1, h2, ?_, tryPlaceGo_avoid we dur l ws g hsorted h⟩
    exact tryPlaceGo_window we dur l ws g (fun itv hm => (hwin itv hm).2) h
  · intro h x hx hxe
    exact tryPlaceGo_none we dur l ws h x hx hxe

/-- Witness for C3 at a concrete input: the placement `[480, 540)` found in
room-day list `[[540, 630)]` with window `[480, 960)` and a 60-minute slot
avoids the existing interval. -/
theorem tryPlace_gap_correct_witness : overlaps ⟨540, 630⟩ ⟨480, 540⟩ = false := by
  have h := (tryPlace_gap_correct 480 960 60 [⟨540, 630⟩]
    (by simp [byStart]) (by simp) (by intro itv hm; simp at hm; simp [hm])
    (by omega) (by omega)).1 ⟨480, 540⟩ rfl
  exact h.2.2.2 ⟨540, 630⟩ (by simp)

lemma sortByStart_sorted (l : List Interval) : List.Pairwise byStart (sortByStart l) :=
  List.sorted_insertionSort byStart l

lemma sortByStart_perm (l : List Interval) : (sortByStart l).Perm l :=
  List.perm_insertionSort byStart l

lemma clampRow_eq_some (ws we : Int) (r : BookedRow) (itv : Interval) :
    clampRow ws we r = some itv ↔
      max r.start_min ws < min r.end_min we ∧
        itv = ⟨max r.start_min ws, min r.end_min we⟩ := by
  simp only [clampRow]
  split
  · rename_i hc
    constructor
    · intro h
      cases h
      exact ⟨hc, rfl⟩
    · intro ⟨_, h⟩
      rw [h]
  · rename_i hc
    constructor
    · intro h
      cases h
    · intro ⟨h1, _⟩
      exact absurd h1 hc

/-- C9: the Interval Store Reader's per-room/per-day list is exactly the
loaded rows of that room and day, each replaced by its clamp
`[max(s, workStart), min(e, workEnd))`, with empty clamps dropped, and the
list sorted ascending by start. -/
theorem busy_map_correct (ws we : Int) (rows : List BookedRow) (room day : Int) :
    List.Pairwise byStart (busyFor ws we rows room day) ∧
    (busyFor ws we rows room day).Perm
      ((rows.filter fun r =>
          decide (r.room_id = room) && decide (r.day_of_week = day)).filterMap
        (clampRow ws we)) ∧
    (∀ itv, itv ∈ busyFor ws we rows room day ↔
      ∃ r ∈ rows, r.room_id = room ∧ r.day_of_week = day ∧
        max r.start_min ws < min r.end_min we ∧
        itv = ⟨max r.start_min ws, min r.end_min we⟩) := by
  refine ⟨sortByStart_sorted _, sortByStart_perm _, fun itv => ?_⟩
  unfold busyFor
  rw [(sortByStart_perm _).mem_iff, List.mem_filterMap]
  constructor
  · intro ⟨r, hr, hc⟩
    obtain ⟨hmem, hkey⟩ := List.mem_filter.mp hr
    simp only [Bool.and_eq_true, decide_eq_true_eq] at hkey
    obtain ⟨h1, h2⟩ := (clampRow_eq_some ws we r itv).mp hc
    exact ⟨r, hmem, hkey.1, hkey.2, h1, h2⟩
  · intro ⟨r, hmem, hroom, hday, hlt, heq⟩
    refine ⟨r, List.mem_filter.mpr ⟨hmem, ?_⟩, ?_⟩
    · simp [hroom, hday]
    · exact (clampRow_eq_some ws we r itv).mpr ⟨hlt, heq⟩

lemma parseHHMM_ok_bounds (str : String) (v : Int) (h : parseHHMM str = .ok v) :
    ∃ hh mm : Int, 0 ≤ hh ∧ hh ≤ 23 ∧ 0 ≤ mm ∧ mm ≤ 59 ∧ v = hh * 60 + mm := by
  unfold parseHHMM at h
  split at h
  · cases h
  · rename_i hh mm heq
    split at h
    · cases h
    · rename_i hc
      push_neg at hc
      cases h
      exact ⟨hh, mm, by omega, by omega, by omega, by omega, rfl⟩

set_option maxRecDepth 100000 in
lemma parseHHMM_mmToHHMM_hm :
    ∀ h : Nat, h < 24 → ∀ m : Nat, m < 60 →
      parseHHMM (mmToHHMM (60 * h + m)) = .ok ((60 * h + m : Nat) : Int) := by
  decide

/-- C7 counterexample: the claim says `parseTime` accepts `"HH:MM:SS"`, but
`parseHHMM` matches only `^(\d{1,2}):(\d{2})$`, so a `"HH:MM:SS"` input is
rejected with the time-format error. -/
theorem parseTime_hhmmss_rejected :
    parseHHMM "10:30:00" = .error .invalidTimeFormat := rfl

/-- C7 (amended): `parseHHMM` accepts only `"H:MM"`/`"HH:MM"` — an
`"HH:MM:SS"` input fails with `InvalidTimeFormat` — fails with
`InvalidTimeRange` when the matched hour is above 23 or the minute above 59,
and on success returns `hour * 60 + minute` (a pure function, so no storage
is touched). -/
theorem parseTime_amended :
    (∀ str v, parseHHMM str = .ok v →
        ∃ hh mm : Int, 0 ≤ hh ∧ hh ≤ 23 ∧ 0 ≤ mm ∧ mm ≤ 59 ∧ v = hh * 60 + mm) ∧
    (∀ minutes : Nat, minutes < 1440 →
        parseHHMM (mmToHHMM minutes) = .ok (minutes : Int)) ∧
    parseHHMM "10:30:00" = .error .invalidTimeFormat ∧
    parseHHMM "24:00" = .error .invalidTimeRange ∧
    parseHHMM "10:60" = .error .invalidTimeRange := by
  refine ⟨parseHHMM_ok_bounds, fun minutes hlt => ?_, rfl, rfl, rfl⟩
  have h1 : minutes / 60 < 24 := Nat.div_lt_of_lt_mul (by omega)
  have h2 : minutes % 60 < 60 := Nat.mod_lt _ (by omega)
  have h3 : 60 * (minutes / 60) + minutes % 60 = minutes := Nat.div_add_mod minutes 60
  have h4 := parseHHMM_mmToHHMM_hm (minutes / 60) h1 (minutes % 60) h2
  rwa [h3] at h4

/-- Witness for C7's amended theorem: the round trip at 10:29. -/
theorem parseTime_amended_witness : parseHHMM (mmToHHMM 629) = .ok (629 : Int) :=
  parseTime_amended.2.1 629 (by omega)

/-- C8 counterexample: a supplied `slot_minutes` of 0 is not rejected with
`InvalidDuration`; `Number(slot_minutes) || 90` silently replaces it with
the default and the request proceeds with 90. -/
theorem slot_minutes_zero_not_rejected : validateSlotMinutes (some 0) = .ok 90 := rfl

/-- C8 (amended): an omitted `slot_minutes` defaults to 90; a supplied 0 is
silently replaced by 90 rather than rejected; a supplied non-zero value
outside (0, 600] is rejected before placement; a value in (0, 600] is used
as given. -/
theorem slot_minutes_amended :
    validateSlotMinutes none = .ok 90 ∧
    validateSlotMinutes (some 0) = .ok 90 ∧
    (∀ v : Int, 0 < v → v ≤ 600 → validateSlotMinutes (some v) = .ok v) ∧
    (∀ v : Int, v ≠ 0 → (v < 0 ∨ 600 < v) →
        validateSlotMinutes (some v) = .error "slot_minutes out of range (1..600)") := by
  refine ⟨rfl, rfl, fun v h1 h2 => ?_, fun v h1 h2 => ?_⟩
  · have hv : resolveSlot (some v) = v := by
      simp only [resolveSlot]
      rw [if_neg (by omega)]
    unfold validateSlotMinutes
    rw [hv, if_neg (by omega)]
  · have hv : resolveSlot (some v) = v := by
      simp only [resolveSlot]
      rw [if_neg h1]
    unfold validateSlotMinutes
    rw [hv, if_pos (by omega)]

/-- Witness for C8's amended theorem: 601 minutes is rejected. -/
theorem slot_minutes_amended_witness :
    validateSlotMinutes (some 601) = .error "slot_minutes out of range (1..600)" :=
  slot_minutes_amended.2.2.2 601 (by omega) (by omega)

lemma firstHit_some {α β : Type} :
    ∀ (l : List α) (f : α → Option β) (a : α) (b : β),
      firstHit l f = some (a, b) →
      ∃ i, ∃ hi : i < l.length, l.get ⟨i, hi⟩ = a ∧ f a = some b ∧
        ∀ j (hj : j < l.length), j < i → f (l.get ⟨j, hj⟩) = none := by
  intro l
  induction l with
  | nil =>
    intro f a b h
    cases h
  | cons x rest ih =>
    intro f a b h
    cases hfx : f x with
    | some b0 =>
      simp only [firstHit, hfx] at h
      cases h
      refine ⟨0, by simp, rfl, hfx, ?_⟩
      intro j hj hj0
      omega
    | none =>
      simp only [firstHit, hfx] at h
      obtain ⟨i, hi, hget, hfa, hearlier⟩ := ih f a b h
      refine ⟨i + 1, by simpa using Nat.succ_lt_succ hi, by simpa using hget, hfa, ?_⟩
      intro j hj hj1
      cases j with
      | zero => simpa using hfx
      | succ j0 =>
        have hj0 : j0 < rest.length := by
          simpa using hj
        have hx := hearlier j0 hj0 (by omega)
        simpa using hx

lemma firstHit_none {α β : Type} :
    ∀ (l : List α) (f : α → Option β), firstHit l f = none ↔ ∀ a ∈ l, f a = none := by
  intro l
  induction l with
  | nil =>
    intro f
    simp [firstHit]
  | cons x rest ih =>
    intro f
    cases hfx : f x with
    | some b0 => simp [firstHit, hfx]
    | none => simp [firstHit, hfx, ih f]

lemma placeCourse_some (rooms days : List Int) (ws we dur : Int)
    (used : Int → Int → List Interval) (d r : Int) (g : Interval)
    (h : placeCourse rooms days ws we dur used = some (d, r, g)) :
    tryPlaceInRoomDay ws we dur (used r d) = some g := by
  obtain ⟨_, _, _, hfd, _⟩ := firstHit_some days _ d (r, g) h
  obtain ⟨_, _, _, hfr, _⟩ := firstHit_some rooms _ r g hfd
  exact hfr

/-- C4: in the Auto-Scheduler loop, the suggestions list is exactly one
entry per input course in input order; a course with no gap yields an
`ok:false` suggestion with reason `"No free slot within working window"` and
null room/day/start/end while later courses are still processed; and the
placement for one course is the first `(day, room)` pair — days ascending,
rooms in candidate order within a day — whose interval list admits a gap,
with every earlier pair admitting none. -/
theorem suggest_placement_order (rooms days : List Int) (ws we dur : Int)
    (tid sid gid : Option Int) :
    (∀ (used : Int → Int → List Interval) (cs : List Int),
        (suggestLoop rooms days ws we dur tid sid gid used cs).map Suggestion.course_id
          = cs) ∧
    (∀ (used : Int → Int → List Interval) (cs : List Int) (sug : Suggestion),
        sug ∈ suggestLoop rooms days ws we dur tid sid gid used cs → sug.ok = false →
        sug.reason = some "No free slot within working window" ∧ sug.room_id = none ∧
          sug.day_of_week = none ∧ sug.start_time = none ∧ sug.end_time = none) ∧
    (∀ (used : Int → Int → List Interval) (d r : Int) (g : Interval),
        placeCourse rooms days ws we dur used = some (d, r, g) →
        tryPlaceInRoomDay ws we dur (used r d) = some g ∧
        ∃ i, ∃ hi : i < days.length, days.get ⟨i, hi⟩ = d ∧
          (∀ j (hj : j < days.length), j < i →
            ∀ r2 ∈ rooms, tryPlaceInRoomDay ws we dur (used r2 (days.get ⟨j, hj⟩)) = none) ∧
          ∃ k, ∃ hk : k < rooms.length, rooms.get ⟨k, hk⟩ = r ∧
            ∀ k2 (hk2 : k2 < rooms.length), k2 < k →
              tryPlaceInRoomDay ws we dur (used (rooms.get ⟨k2, hk2⟩) d) = none) ∧
    (∀ (used : Int → Int → List Interval),
        placeCourse rooms days ws we dur used = none →
        ∀ d ∈ days, ∀ r ∈ rooms, tryPlaceInRoomDay ws we dur (used r d) = none) := by
  refine ⟨?_, ?_, ?_, ?_⟩
  · intro used cs
    induction cs generalizing used with
    | nil => rfl
    | cons c rest ih =>
      cases hp : placeCourse rooms days ws we dur used with
      | some t =>
        obtain ⟨d, r, g⟩ := t
        simp [suggestLoop, hp, ih]
      | none => simp [suggestLoop, hp, ih]
  · intro used cs
    induction cs generalizing used with
    | nil =>
      intro sug hmem
      cases hmem
    | cons c rest ih =>
      intro sug hmem hok
      cases hp : placeCourse rooms days ws we dur used with
      | some t =>
        obtain ⟨d, r, g⟩ := t
        rw [suggestLoop, hp] at hmem
        rcases List.mem_cons.mp hmem with rfl | hmem
        · cases hok
        · exact ih (reserve used r d g) sug hmem hok
      | none =>
        rw [suggestLoop, hp] at hmem
        rcases List.mem_cons.mp hmem with rfl | hmem
        · exact ⟨rfl, rfl, rfl, rfl, rfl⟩
        · exact ih used sug hmem hok
  · intro used d r g h
    refine ⟨placeCourse_some rooms days ws we dur used d r g h, ?_⟩
    obtain ⟨i, hi, hgetd, hfd, hearlier⟩ := firstHit_some days _ d (r, g) h
    refine ⟨i, hi, hgetd, ?_, ?_⟩
    · intro j hj hji r2 hr2
      have hz := hearlier j hj hji
      exact (firstHit_none rooms _).mp hz r2 hr2
    · obtain ⟨k, hk, hgetr, hfr, hkearlier⟩ := firstHit_some rooms _ r g hfd
      exact ⟨k, hk, hgetr, fun k2 hk2 hk2k => hkearlier k2 hk2 hk2k⟩
  · intro used h d hd r hr
    have hz := (firstHit_none days _).mp h d hd
    exact (firstHit_none rooms _).mp hz r hr

/-- Witness for C4 at a concrete input: two courses into one room and one
day keep one suggestion per course in input order. -/
theorem suggest_placement_order_witness :
    (suggestLoop [1] [0] 480 700 90 none none none (fun _ _ => []) [7, 8]).map
      Suggestion.course_id = [7, 8] :=
  (suggest_placement_order [1] [0] 480 700 90 none none none).1 (fun _ _ => []) [7, 8]

lemma reserve_sorted (used : Int → Int → List Interval) (room day : Int) (g : Interval)
    (h : ∀ r d, List.Pairwise byStart (used r d)) :
    ∀ r d, List.Pairwise byStart (reserve used room day g r d) := by
  intro r d
  unfold reserve
  split
  · exact sortByStart_sorted _
  · exact h r d

lemma reserve_mem_of_mem (used : Int → Int → List Interval) (room day : Int)
    (g : Interval) (r d : Int) (itv : Interval) (hm : itv ∈ used r d) :
    itv ∈ reserve used room day g r d := by
  unfold reserve
  split
  · rename_i hc
    obtain ⟨rfl, rfl⟩ := hc
    rw [(sortByStart_perm _).mem_iff]
    exact List.mem_append_left _ hm
  · exact hm

lemma reserve_mem_self (used : Int → Int → List Interval) (room day : Int)
    (g : Interval) : g ∈ reserve used room day g room day := by
  unfold reserve
  rw [if_pos ⟨rfl, rfl⟩, (sortByStart_perm _).mem_iff]
  exact List.mem_append_right _ (List.mem_singleton.mpr rfl)

lemma suggestLoop_no_overlap_aux (rooms days : List Int) (ws we dur : Int)
    (tid sid gid : Option Int) :
    ∀ (cs : List Int) (used : Int → Int → List Interval),
      (∀ r d, List.Pairwise byStart (used r d)) →
      ((∀ sug ∈ suggestLoop rooms days ws we dur tid sid gid used cs,
          ∀ r d g, okPlacement sug r d g → ∀ itv ∈ used r d, overlaps itv g = false) ∧
        List.Pairwise suggestionsCompat
          (suggestLoop rooms days ws we dur tid sid gid used cs)) := by
  intro cs
  induction cs with
  | nil =>
    intro used _
    constructor
    · intro sug hmem
      simp only [suggestLoop] at hmem
      cases hmem
    · simp only [suggestLoop]
      exact List.Pairwise.nil
  | cons c rest ih =>
    intro used hs
    cases hp : placeCourse rooms days ws we dur used with
    | some t =>
      obtain ⟨d0, r0, g0⟩ := t
      have hs2 := reserve_sorted used r0 d0 g0 hs
      have IH := ih (reserve used r0 d0 g0) hs2
      have hplace := placeCourse_some rooms days ws we dur used d0 r0 g0 hp
      have havoid : ∀ itv ∈ used r0 d0, overlaps itv g0 = false :=
        tryPlaceGo_avoid we dur (used r0 d0) ws g0 (hs r0 d0) hplace
      constructor
      · intro sug hmem r d g hok
        rw [suggestLoop, hp] at hmem
        rcases List.mem_cons.mp hmem with rfl | hmem
        · obtain ⟨_, hr, hd, hgs, hge⟩ := hok
          injection hr with hr
          injection hd with hd
          injection hgs with hgs
          injection hge with hge
          subst hr
          subst hd
          intro itv hitv
          have hg : g = g0 := by
            cases g
            cases g0
            simp only at hgs hge
            simp [hgs, hge]
          rw [hg]
          exact havoid itv hitv
        · intro itv hitv
          exact IH.1 sug hmem r d g hok itv (reserve_mem_of_mem used r0 d0 g0 r d itv hitv)
      · rw [suggestLoop, hp]
        refine List.pairwise_cons.mpr ⟨?_, IH.2⟩
        intro s2 hs2mem r d g1 g2 hok1 hok2
        obtain ⟨_, hr, hd, hgs, hge⟩ := hok1
        injection hr with hr
        injection hd with hd
        injection hgs with hgs
        injection hge with hge
        subst hr
        subst hd
        have hg : g1 = g0 := by
          cases g1
          cases g0
          simp only at hgs hge
          simp [hgs, hge]
        rw [hg]
        exact IH.1 s2 hs2mem r0 d0 g2 hok2 g0 (reserve_mem_self used r0 d0 g0)
    | none =>
      constructor
      · intro sug hmem r d g hok
        rw [suggestLoop, hp] at hmem
        rcases List.mem_cons.mp hmem with rfl | hmem
        · exact absurd hok.1 (by simp)
        · exact (ih used hs).1 sug hmem r d g hok
      · rw [suggestLoop, hp]
        refine List.pairwise_cons.mpr ⟨?_, (ih used hs).2⟩
        intro s2 _ r d g1 g2 hok1 _
        exact absurd hok1.1 (by simp)

/-- C6: in one Suggest call starting from per-room/per-day sorted interval
lists, every `ok:true` suggestion's interval overlaps no interval of the
loaded (clamped) map for its room and day, and no two `ok:true` suggestions
of the same call that share a room and day overlap each other (the tentative
reservation map makes later courses see earlier placements as occupied). -/
theorem suggest_tentative_no_overlap (rooms days : List Int) (ws we dur : Int)
    (tid sid gid : Option Int) (used0 : Int → Int → List Interval) (cs : List Int)
    (hsorted : ∀ r d, List.Pairwise byStart (used0 r d)) :
    (∀ sug ∈ suggestLoop rooms days ws we dur tid sid gid used0 cs,
        ∀ r d g, okPlacement sug r d g → ∀ itv ∈ used0 r d, overlaps itv g = false) ∧
    List.Pairwise suggestionsCompat
      (suggestLoop rooms days ws we dur tid sid gid used0 cs) :=
  suggestLoop_no_overlap_aux rooms days ws we dur tid sid gid cs used0 hsorted

/-- Witness for C6 at a concrete input: the placement suggested next to an
existing busy interval does not overlap it. -/
theorem suggest_tentative_no_overlap_witness :
    overlaps ⟨600, 660⟩ ⟨480, 570⟩ = false := by
  have h := (suggest_tentative_no_overlap [1] [0] 480 700 90 none none none
      (fun _ _ => [⟨600, 660⟩]) [7] (fun _ _ => by simp)).1
  exact h _ (List.mem_cons_self _ _) 1 0 ⟨480, 570⟩ ⟨rfl, rfl, rfl, rfl, rfl⟩
    ⟨600, 660⟩ (by simp)

lemma hasConflict_eq_true (db : List Booking) (room dow s e : Int) :
    hasConflict db room dow s e = true ↔
      ∃ b ∈ db, b.room_id = some room ∧ b.day_of_week = dow ∧
        b.start_min < e ∧ b.end_min > s := by
  simp [hasConflict, and_assoc]

lemma hasConflict_eq_false (db : List Booking) (room dow s e : Int) :
    hasConflict db room dow s e = false ↔
      ∀ b ∈ db, b.room_id = some room → b.day_of_week = dow →
        e ≤ b.start_min ∨ b.end_min ≤ s := by
  rw [← Bool.not_eq_true, hasConflict_eq_true]
  constructor
  · intro h b hb hroom hday
    by_contra hc
    push_neg at hc
    exact h ⟨b, hb, hroom, hday, by omega, by omega⟩
  · intro h hex
    obtain ⟨b, hb, hroom, hday, h1, h2⟩ := hex
    rcases h b hb hroom hday with h3 | h3 <;> omega

lemma hasConflictExcl_eq_true (db : List Booking) (exclId room dow s e : Int) :
    hasConflictExcl db exclId room dow s e = true ↔
      ∃ b ∈ db, b.id ≠ exclId ∧ b.room_id = some room ∧ b.day_of_week = dow ∧
        b.start_min < e ∧ b.end_min > s := by
  simp [hasConflictExcl, and_assoc]

lemma hasConflictExcl_eq_false (db : List Booking) (exclId room dow s e : Int) :
    hasConflictExcl db exclId room dow s e = false ↔
      ∀ b ∈ db, b.id ≠ exclId → b.room_id = some room → b.day_of_week = dow →
        e ≤ b.start_min ∨ b.end_min ≤ s := by
  rw [← Bool.not_eq_true, hasConflictExcl_eq_true]
  constructor
  · intro h b hb hbid hroom hday
    by_contra hc
    push_neg at hc
    exact h ⟨b, hb, hbid, hroom, hday, by omega, by omega⟩
  · intro h hex
    obtain ⟨b, hb, hbid, hroom, hday, h1, h2⟩ := hex
    rcases h b hb hbid hroom hday with h3 | h3 <;> omega

lemma parseHHMM_ok_ne_empty (s : String) (v : Int) (h : parseHHMM s = .ok v) :
    s ≠ "" := by
  intro he
  have hz : parseHHMM "" = .error .invalidTimeFormat := rfl
  rw [he, hz] at h
  cases h

lemma commitOne_cases (db : List Booking) (n : Int) (row : CommitRow)
    (res : RowResult) (db2 : List Booking) (n2 : Int)
    (h : commitOne db n row = .ok (res, db2, n2)) :
    (res.ok = false ∧ res.row = row ∧ db2 = db ∧ n2 = n) ∨
    (res.ok = true ∧ ∃ sHH eHH,
        parseHHMM (row.start_time.getD "") = .ok sHH ∧
        parseHHMM (row.end_time.getD "") = .ok eHH ∧ sHH < eHH ∧
        row.room_id = some (row.room_id.getD 0) ∧
        row.day_of_week = some (row.day_of_week.getD 0) ∧
        hasConflict db (row.room_id.getD 0) (row.day_of_week.getD 0) sHH eHH = false ∧
        db2 = db ++ [({ id := n, course_id := row.course_id.getD 0,
                        term_id := row.term_id, section_id := row.section_id,
                        group_id := row.group_id, room_id := some (row.room_id.getD 0),
                        day_of_week := row.day_of_week.getD 0, start_min := sHH,
                        end_min := eHH,
                        duration_minutes :=
                          some (insertedDuration row.duration_minutes sHH eHH) } :
                       Booking)] ∧
        n2 = n + 1 ∧
        res = { ok := true, offering_id := some n, reason := none, row := row }) := by
  unfold commitOne at h
  split at h
  · cases h
    exact Or.inl ⟨rfl, rfl, rfl, rfl⟩
  · rename_i hmiss
    split at h
    · cases h
      exact Or.inl ⟨rfl, rfl, rfl, rfl⟩
    · split at h
      · cases h
      · rename_i sHH hps
        split at h
        · cases h
        · rename_i eHH hpe
          split at h
          · cases h
            exact Or.inl ⟨rfl, rfl, rfl, rfl⟩
          · rename_i hlt
            split at h
            · cases h
              exact Or.inl ⟨rfl, rfl, rfl, rfl⟩
            · rename_i hcf
              cases h
              refine Or.inr ⟨rfl, sHH, eHH, hps, hpe, by omega, ?_, ?_, by simpa using hcf,
                rfl, rfl, rfl⟩
              · simp only [Bool.or_eq_true, decide_eq_true_eq, not_or] at hmiss
                cases hrm : row.room_id with
                | none => exact absurd hrm hmiss.1.1.1.2
                | some v => rfl
              · simp only [Bool.or_eq_true, decide_eq_true_eq, not_or] at hmiss
                cases hdw : row.day_of_week with
                | none => exact absurd hdw hmiss.1.1.2
                | some v => rfl

lemma commitOne_valid_eval (db : List Booking) (n : Int) (row : CommitRow)
    (course room dow : Int) (st et : String) (sHH eHH : Int)
    (hc : row.course_id = some course) (hc0 : course ≠ 0)
    (hr : row.room_id = some room) (hd : row.day_of_week = some dow)
    (hd0 : 0 ≤ dow) (hd6 : dow ≤ 6)
    (hst : row.start_time = some st) (hps : parseHHMM st = .ok sHH)
    (het : row.end_time = some et) (hpe : parseHHMM et = .ok eHH) (hlt : sHH < eHH) :
    commitOne db n row =
      if hasConflict db room dow sHH eHH then
        .ok ({ ok := false, offering_id := none,
               reason := some "Room already booked at this day/time", row := row },
             db, n)
      else
        .ok ({ ok := true, offering_id := some n, reason := none, row := row },
             db ++ [({ id := n, course_id := course, term_id := row.term_id,
                       section_id := row.section_id, group_id := row.group_id,
                       room_id := some room, day_of_week := dow, start_min := sHH,
                       end_min := eHH,
                       duration_minutes :=
                         some (insertedDuration row.duration_minutes sHH eHH) } :
                      Booking)],
             n + 1) := by
  have hst2 := parseHHMM_ok_ne_empty st sHH hps
  have het2 := parseHHMM_ok_ne_empty et eHH hpe
  unfold commitOne
  simp only [hc, hr, hd, hst, het, Option.getD_some, hps, hpe, falsyOptInt, falsyOptStr]
  rw [if_neg (by simp [hc0, hst2, het2])]
  rw [if_neg (by simp only [Bool.or_eq_true, decide_eq_true_eq]; omega)]
  rw [if_neg (by omega)]

lemma commitOne_invariant (db : List Booking) (n : Int) (row : CommitRow)
    (res : RowResult) (db2 : List Booking) (n2 : Int) (hinv : InvariantDB db)
    (h : commitOne db n row = .ok (res, db2, n2)) :
    InvariantDB db2 ∧ (res.ok = false → db2 = db ∧ n2 = n) := by
  rcases commitOne_cases db n row res db2 n2 h with
    ⟨hok, _, rfl, rfl⟩ | ⟨hok, sHH, eHH, hps, hpe, hlt, hrm, hdw, hcf, rfl, rfl, rfl⟩
  · exact ⟨hinv, fun _ => ⟨rfl, rfl⟩⟩
  · constructor
    · refine List.pairwise_append.mpr ⟨hinv, List.pairwise_singleton _ _, ?_⟩
      intro a ha b hb
      rw [List.mem_singleton] at hb
      subst hb
      intro rm h1 h2 h3
      simp only at h2 h3
      injection h2 with h2
      have h4 := (hasConflict_eq_false db _ _ sHH eHH).mp hcf a ha (h2 ▸ h1) h3
      simp only
      omega
    · intro hfalse
      rw [hok] at hfalse
      cases hfalse

lemma commitRows_invariant :
    ∀ (rows : List CommitRow) (db : List Booking) (n : Int)
      (results : List RowResult) (db2 : List Booking) (n2 : Int),
      InvariantDB db → commitRows db n rows = .ok (results, db2, n2) →
      InvariantDB db2 := by
  intro rows
  induction rows with
  | nil =>
    intro db n results db2 n2 hinv h
    simp only [commitRows] at h
    cases h
    exact hinv
  | cons row rest ih =>
    intro db n results db2 n2 hinv h
    cases heq1 : commitOne db n row with
    | error err =>
      simp only [commitRows, heq1] at h
      cases h
    | ok out1 =>
      obtain ⟨res, dbA, nA⟩ := out1
      cases heq2 : commitRows dbA nA rest with
      | error err =>
        simp only [commitRows, heq1, heq2] at h
        cases h
      | ok out2 =>
        obtain ⟨resultsB, dbB, nB⟩ := out2
        simp only [commitRows, heq1, heq2] at h
        obtain ⟨rfl, rfl, rfl⟩ := h
        have hA := commitOne_invariant db n row res dbA nA hinv heq1
        exact ih _ _ _ _ _ hA.1 heq2

lemma createOffering_invariant (db : List Booking) (n : Int) (p : CreateReq)
    (hinv : InvariantDB db) :
    InvariantDB (createOffering db n p).2.1 ∧
      ((createOffering db n p).1 = .conflict → (createOffering db n p).2.1 = db) := by
  unfold createOffering
  split
  · exact ⟨hinv, fun hc => by cases hc⟩
  · split
    · exact ⟨hinv, fun hc => by cases hc⟩
    · split
      · exact ⟨hinv, fun hc => by cases hc⟩
      · split
        · exact ⟨hinv, fun hc => by cases hc⟩
        · split
          · exact ⟨hinv, fun hc => by cases hc⟩
          · split
            · exact ⟨hinv, fun hc => by cases hc⟩
            · split
              · rename_i room heq
                split
                · exact ⟨hinv, fun _ => rfl⟩
                · rename_i hcf
                  have hcf2 : hasConflict db room (p.day_of_week.getD 0)
                      (p.start_min.getD 0) (createEnd p) = false := by
                    simpa using hcf
                  refine ⟨?_, fun hc => by cases hc⟩
                  refine List.pairwise_append.mpr
                    ⟨hinv, List.pairwise_singleton _ _, ?_⟩
                  intro a ha b hb
                  rw [List.mem_singleton] at hb
                  subst hb
                  intro rm h1 h2 h3
                  simp only [createBooking] at h2 h3
                  rw [heq] at h2
                  injection h2 with h2
                  have h4 := (hasConflict_eq_false db room _ _ _).mp hcf2 a ha
                    (h2 ▸ h1) h3
                  simp only [createBooking]
                  omega
              · rename_i heq
                refine ⟨?_, fun hc => by cases hc⟩
                refine List.pairwise_append.mpr
                  ⟨hinv, List.pairwise_singleton _ _, ?_⟩
                intro a ha b hb
                rw [List.mem_singleton] at hb
                subst hb
                intro rm h1 h2 h3
                simp only [createBooking] at h2
                rw [heq] at h2
                cases h2

lemma patchUpdate_invariant (db : List Booking) (id : Int) (cur : Booking) (p : PatchReq)
    (hinv : InvariantDB db) (hnodup : (db.map Booking.id).Nodup)
    (hcur : cur ∈ db) (hcurid : cur.id = id)
    (hsafe : ∀ b ∈ db, b.id ≠ id → ∀ rm, patchRoom cur p = some rm →
        b.room_id = some rm → b.day_of_week = patchDay cur p →
        patchEnd cur p ≤ b.start_min ∨ b.end_min ≤ patchStart cur p) :
    InvariantDB (patchUpdate db id cur p) := by
  have hinj : ∀ x ∈ db, ∀ y ∈ db, x.id = y.id → x = y := fun x hx y hy hxy =>
    List.inj_on_of_nodup_map hnodup hx hy hxy
  have hpairne : List.Pairwise (fun a b : Booking => a.id ≠ b.id) db :=
    List.pairwise_map.mp hnodup
  unfold patchUpdate InvariantDB
  rw [List.pairwise_map]
  refine List.Pairwise.imp_of_mem ?_ (hinv.and hpairne)
  intro a b ha hb hab
  obtain ⟨hcompat, hne⟩ := hab
  by_cases haid : a.id = id
  · by_cases hbid : b.id = id
    · exact absurd (haid.trans hbid.symm) hne
    · have hacur : a = cur := hinj a ha cur hcur (haid.trans hcurid.symm)
      rw [if_pos haid, if_neg hbid]
      intro rm h1 h2 h3
      dsimp only at h1 h3 ⊢
      rw [hacur] at h1
      have h5 := hsafe b hb hbid rm h1 h2 h3.symm
      omega
  · by_cases hbid : b.id = id
    · have hbcur : b = cur := hinj b hb cur hcur (hbid.trans hcurid.symm)
      rw [if_neg haid, if_pos hbid]
      intro rm h1 h2 h3
      dsimp only at h2 h3 ⊢
      rw [hbcur] at h2
      have h5 := hsafe a ha haid rm h2 h1 h3
      omega
    · rw [if_neg haid, if_neg hbid]
      exact hcompat

lemma patchOffering_invariant (db : List Booking) (id : Int) (p : PatchReq)
    (hinv : InvariantDB db) (hnodup : (db.map Booking.id).Nodup) :
    InvariantDB (patchOffering db id p).2 ∧
      ((patchOffering db id p).1 = .conflict → (patchOffering db id p).2 = db) := by
  cases hfind : db.find? (fun b => decide (b.id = id)) with
  | none =>
    simp only [patchOffering, hfind]
    exact ⟨hinv, by simp⟩
  | some cur =>
    have hcurmem : cur ∈ db := List.mem_of_find?_eq_some hfind
    have hcurid : cur.id = id := by
      have h0 := List.find?_some hfind
      simpa using h0
    simp only [patchOffering, hfind]
    split
    · exact ⟨hinv, fun hc => by cases hc⟩
    · split
      · exact ⟨hinv, fun hc => by cases hc⟩
      · split
        · rename_i rm hroomeq
          split
          · exact ⟨hinv, fun _ => rfl⟩
          · rename_i hcf
            refine ⟨?_, fun hc => by cases hc⟩
            have hcf2 : hasConflictExcl db id rm (patchDay cur p) (patchStart cur p)
                (patchEnd cur p) = false := by
              simpa using hcf
            apply patchUpdate_invariant db id cur p hinv hnodup hcurmem hcurid
            intro b hb hbid rm2 hpr hbroom hbday
            rw [hroomeq] at hpr
            injection hpr with hpr
            subst hpr
            exact (hasConflictExcl_eq_false db id rm _ _ _).mp hcf2 b hb hbid hbroom hbday
        · rename_i hroomeq
          refine ⟨?_, fun hc => by cases hc⟩
          apply patchUpdate_invariant db id cur p hinv hnodup hcurmem hcurid
          intro b hb hbid rm2 hpr hbroom hbday
          rw [hroomeq] at hpr
          cases hpr

/-- C1: every commit path on the persisted booking table preserves the
no-double-booking invariant: a batch-commit row (and hence a single-row
commit), the single-booking create, and the partial update — whose conflict
check excludes the target's own identifier — each reject an interval that
overlaps an existing booking of the same room and day-of-week without
changing the table, and any successful write leaves the table pairwise
non-overlapping per room and day (`B1.end <= B2.start OR B2.end <=
B1.start`).  The update clause assumes the table's primary keys are unique. -/
theorem booking_invariant_preserved :
    (∀ db n row res db2 n2, InvariantDB db →
        commitOne db n row = .ok (res, db2, n2) →
        InvariantDB db2 ∧ (res.ok = false → db2 = db ∧ n2 = n)) ∧
    (∀ rows db n results db2 n2, InvariantDB db →
        commitRows db n rows = .ok (results, db2, n2) → InvariantDB db2) ∧
    (∀ db n row course room dow st et sHH eHH, InvariantDB db →
        row.course_id = some course → course ≠ 0 → row.room_id = some room →
        row.day_of_week = some dow → 0 ≤ dow → dow ≤ 6 →
        row.start_time = some st → parseHHMM st = .ok sHH →
        row.end_time = some et → parseHHMM et = .ok eHH → sHH < eHH →
        (∃ b ∈ db, b.room_id = some room ∧ b.day_of_week = dow ∧
            overlaps ⟨b.start_min, b.end_min⟩ ⟨sHH, eHH⟩ = true) →
        commitOne db n row =
          .ok ({ ok := false, offering_id := none,
                 reason := some "Room already booked at this day/time", row := row },
               db, n)) ∧
    (∀ db n p, InvariantDB db →
        InvariantDB (createOffering db n p).2.1 ∧
          ((createOffering db n p).1 = .conflict →
            (createOffering db n p).2.1 = db)) ∧
    (∀ db id p, InvariantDB db → (db.map Booking.id).Nodup →
        InvariantDB (patchOffering db id p).2 ∧
          ((patchOffering db id p).1 = .conflict → (patchOffering db id p).2 = db)) := by
  refine ⟨fun db n row res db2 n2 hinv h => commitOne_invariant db n row res db2 n2 hinv h,
    fun rows db n results db2 n2 hinv h =>
      commitRows_invariant rows db n results db2 n2 hinv h,
    ?_,
    fun db n p hinv => createOffering_invariant db n p hinv,
    fun db id p hinv hnodup => patchOffering_invariant db id p hinv hnodup⟩
  intro db n row course room dow st et sHH eHH hinv hc hc0 hr hd hd0 hd6 hst hps het
    hpe hlt hex
  have heval := commitOne_valid_eval db n row course room dow st et sHH eHH hc hc0 hr
    hd hd0 hd6 hst hps het hpe hlt
  have hconf : hasConflict db room dow sHH eHH = true := by
    rw [hasConflict_eq_true]
    obtain ⟨b, hb, h1, h2, h3⟩ := hex
    rw [overlaps_true_iff] at h3
    obtain ⟨h3a, h3b⟩ := h3
    simp only at h3a h3b
    exact ⟨b, hb, h1, h2, h3a, h3b⟩
  rw [heval, if_pos hconf]

/-- Witness for C1 at a concrete input: committing 09:30-10:30 into room 5
on day 2 over an existing 09:00-10:00 booking is rejected and the table is
unchanged. -/
theorem booking_invariant_preserved_witness :
    commitOne [⟨1, 1, none, none, none, some 5, 2, 540, 600, some 60⟩] 2
        ⟨some 1, none, none, none, some 5, some 2, some "09:30", some "10:30", none⟩ =
      .ok ({ ok := false, offering_id := none,
             reason := some "Room already booked at this day/time",
             row := ⟨some 1, none, none, none, some 5, some 2, some "09:30",
                     some "10:30", none⟩ },
           [⟨1, 1, none, none, none, some 5, 2, 540, 600, some 60⟩], 2) := by
  exact booking_invariant_preserved.2.2.1
    [⟨1, 1, none, none, none, some 5, 2, 540, 600, some 60⟩] 2
    ⟨some 1, none, none, none, some 5, some 2, some "09:30", some "10:30", none⟩
    1 5 2 "09:30" "10:30" 570 630 (List.pairwise_singleton _ _)
    rfl (by omega) rfl rfl (by omega) (by omega) rfl rfl rfl rfl (by omega)
    ⟨⟨1, 1, none, none, none, some 5, 2, 540, 600, some 60⟩, by simp, rfl, rfl,
      by decide⟩

lemma commitOne_total (db : List Booking) (n : Int) (row : CommitRow)
    (hsafe : rowSafe row) :
    ∃ res db2 n2, commitOne db n row = .ok (res, db2, n2) ∧ res.row = row := by
  unfold commitOne
  split
  · exact ⟨_, _, _, rfl, rfl⟩
  · rename_i hmiss
    split
    · exact ⟨_, _, _, rfl, rfl⟩
    · rename_i hday
      have hreach : reachesParse row :=
        ⟨Bool.eq_false_iff.mpr hmiss, Bool.eq_false_iff.mpr hday⟩
      obtain ⟨⟨v, hv⟩, w, hw⟩ := hsafe hreach
      simp only [hv, hw]
      split
      · exact ⟨_, _, _, rfl, rfl⟩
      · split
        · exact ⟨_, _, _, rfl, rfl⟩
        · exact ⟨_, _, _, rfl, rfl⟩

lemma filter_ok_split (results : List RowResult) :
    (results.filter fun x => x.ok).length +
      (results.filter fun x => !x.ok).length = results.length := by
  induction results with
  | nil => rfl
  | cons x xs ih =>
    cases hx : x.ok <;> simp [List.filter_cons, hx, ← ih] <;> omega

lemma commitRows_results :
    ∀ (rows : List CommitRow) (db : List Booking) (n : Int),
      (∀ r ∈ rows, rowSafe r) →
      ∃ results db2 n2, commitRows db n rows = .ok (results, db2, n2) ∧
        results.length = rows.length ∧
        ∀ i (hi : i < results.length) (hi2 : i < rows.length),
          (results.get ⟨i, hi⟩).row = rows.get ⟨i, hi2⟩ := by
  intro rows
  induction rows with
  | nil =>
    intro db n _
    exact ⟨[], db, n, rfl, rfl, fun i hi hi2 => absurd hi (by simp)⟩
  | cons row rest ih =>
    intro db n hsafe
    obtain ⟨res, dbA, nA, h1, hrow⟩ :=
      commitOne_total db n row (hsafe row (List.mem_cons_self _ _))
    obtain ⟨resultsB, dbB, nB, h2, hlen, hcorr⟩ :=
      ih dbA nA (fun r hr => hsafe r (List.mem_cons_of_mem _ hr))
    refine ⟨res :: resultsB, dbB, nB, ?_, by simp [hlen], ?_⟩
    · simp only [commitRows, h1, h2]
    · intro i hi hi2
      cases i with
      | zero => simpa using hrow
      | succ i0 =>
        have hi0 : i0 < resultsB.length := by simpa using hi
        have hi02 : i0 < rest.length := by simpa using hi2
        simpa using hcorr i0 hi0 hi02

/-- C5: for a batch whose rows carry well-formed times (the declared
interface shape), batch commit produces exactly one result per input row in
input order (each result echoes its row); a row whose re-validated interval
conflicts with the current persisted state is reported `ok:false` with the
room-conflict reason and inserts nothing, and any failed row leaves the
state unchanged while later rows are still processed; the response counts
satisfy `created + failed = number of rows`, with `created`/`failed` the
numbers of `ok:true`/`ok:false` results. -/
theorem commit_batch_results (db : List Booking) (n : Int) (rows : List CommitRow)
    (hsafe : ∀ r ∈ rows, rowSafe r) :
    (∃ results db2 n2, commitRows db n rows = .ok (results, db2, n2) ∧
        results.length = rows.length ∧
        (∀ i (hi : i < results.length) (hi2 : i < rows.length),
            (results.get ⟨i, hi⟩).row = rows.get ⟨i, hi2⟩) ∧
        (results.filter fun x => x.ok).length +
            (results.filter fun x => !x.ok).length = rows.length) ∧
    (∀ db0 n0 row res db3 n3, commitOne db0 n0 row = .ok (res, db3, n3) →
        res.ok = false → db3 = db0 ∧ n3 = n0) ∧
    (∀ db0 n0 row course room dow st et sHH eHH,
        row.course_id = some course → course ≠ 0 → row.room_id = some room →
        row.day_of_week = some dow → 0 ≤ dow → dow ≤ 6 →
        row.start_time = some st → parseHHMM st = .ok sHH →
        row.end_time = some et → parseHHMM et = .ok eHH → sHH < eHH →
        hasConflict db0 room dow sHH eHH = true →
        commitOne db0 n0 row =
          .ok ({ ok := false, offering_id := none,
                 reason := some "Room already booked at this day/time", row := row },
               db0, n0)) := by
  refine ⟨?_, ?_, ?_⟩
  · obtain ⟨results, db2, n2, h1, h2, h3⟩ := commitRows_results rows db n hsafe
    refine ⟨results, db2, n2, h1, h2, h3, ?_⟩
    rw [filter_ok_split]
    exact h2
  · intro db0 n0 row res db3 n3 h hok
    rcases commitOne_cases db0 n0 row res db3 n3 h with ⟨_, _, rfl, rfl⟩ | ⟨htrue, _⟩
    · exact ⟨rfl, rfl⟩
    · rw [htrue] at hok
      cases hok
  · intro db0 n0 row course room dow st et sHH eHH hc hc0 hr hd hd0 hd6 hst hps het
      hpe hlt hconf
    have heval := commitOne_valid_eval db0 n0 row course room dow st et sHH eHH hc
      hc0 hr hd hd0 hd6 hst hps het hpe hlt
    rw [heval, if_pos hconf]

/-- Witness for C5 at a concrete input: a two-row batch (both rows asking
for the same room/day/slot) gets exactly two results. -/
theorem commit_batch_results_witness :
    ∃ results db2 n2,
      commitRows [] 1
          [⟨some 1, none, none, none, some 5, some 2, some "09:00", some "10:00", none⟩,
           ⟨some 2, none, none, none, some 5, some 2, some "09:00", some "10:00", none⟩] =
        .ok (results, db2, n2) ∧ results.length = 2 := by
  obtain ⟨⟨results, db2, n2, h1, h2, _⟩, _, _⟩ := commit_batch_results [] 1
    [⟨some 1, none, none, none, some 5, some 2, some "09:00", some "10:00", none⟩,
     ⟨some 2, none, none, none, some 5, some 2, some "09:00", some "10:00", none⟩]
    (by
      intro r hr
      simp only [List.mem_cons, List.mem_singleton] at hr
      rcases hr with rfl | rfl | hr
      · exact fun _ => ⟨⟨540, rfl⟩, 600, rfl⟩
      · exact fun _ => ⟨⟨540, rfl⟩, 600, rfl⟩
      · cases hr)
  exact ⟨results, db2, n2, h1, h2⟩

/-- C10: the `duration_minutes` stored by a successful commit row is the
caller's value when that value is a non-zero number, and the parsed
`end - start` when it is absent, null or 0 (`Number(duration_minutes || eHH
- sHH)`); the store performs no agreement or range check on a supplied
value (the witness stores 1000 for a 60-minute interval). -/
theorem commit_duration_store (db : List Booking) (n : Int) (row : CommitRow)
    (course room dow : Int) (st et : String) (sHH eHH : Int)
    (hc : row.course_id = some course) (hc0 : course ≠ 0)
    (hr : row.room_id = some room) (hd : row.day_of_week = some dow)
    (hd0 : 0 ≤ dow) (hd6 : dow ≤ 6)
    (hst : row.start_time = some st) (hps : parseHHMM st = .ok sHH)
    (het : row.end_time = some et) (hpe : parseHHMM et = .ok eHH) (hlt : sHH < eHH)
    (hnoconf : hasConflict db room dow sHH eHH = false) :
    ∃ b : Booking,
      commitOne db n row =
        .ok ({ ok := true, offering_id := some n, reason := none, row := row },
             db ++ [b], n + 1) ∧
      ((row.duration_minutes = none ∨ row.duration_minutes = some 0) →
          b.duration_minutes = some (eHH - sHH)) ∧
      (∀ dm, row.duration_minutes = some dm → dm ≠ 0 →
          b.duration_minutes = some dm) := by
  have heval := commitOne_valid_eval db n row course room dow st et sHH eHH hc hc0
    hr hd hd0 hd6 hst hps het hpe hlt
  rw [heval, if_neg (by simp [hnoconf])]
  refine ⟨_, rfl, ?_, ?_⟩
  · intro hdm
    rcases hdm with hdm | hdm <;> simp [insertedDuration, hdm]
  · intro dm hdm hdm0
    simp [insertedDuration, hdm, hdm0]

/-- Witness for C10 at a concrete input: a supplied `duration_minutes` of
1000 (outside (0,600], disagreeing with the 60-minute interval) is stored
as-is on a successful insert. -/
theorem commit_duration_store_witness :
    ∃ b : Booking,
      commitOne [] 1 ⟨some 1, none, none, none, some 5, some 2, some "09:00",
          some "10:00", some 1000⟩ =
        .ok ({ ok := true, offering_id := some 1, reason := none,
               row := ⟨some 1, none, none, none, some 5, some 2, some "09:00",
                       some "10:00", some 1000⟩ },
             [] ++ [b], 1 + 1) ∧ b.duration_minutes = some 1000 := by
  obtain ⟨b, h1, _, h3⟩ := commit_duration_store [] 1
    ⟨some 1, none, none, none, some 5, some 2, some "09:00", some "10:00", some 1000⟩
    1 5 2 "09:00" "10:00" 540 600
    rfl (by omega) rfl rfl (by omega) (by omega) rfl rfl rfl rfl (by omega) rfl
  exact ⟨b, h1, h3 1000 rfl (by omega)⟩

end SchedEngine
